import Mathlib

/-!
Shallow embedding of the MCP-manager VS Code extension core
(`src/types.ts`, `src/services/healthCheckService.ts`,
`src/services/configService.ts`, and the tree-data provider's
`getServerItems`), together with theorems settling the frozen claims.

Conventions of the embedding:
* TypeScript `Record<string, T>` objects and JS `Map`s are modelled as
  insertion-ordered association lists `OMap T := List (String × T)`;
  `omapSet` mirrors JS property assignment / `Map.set` (update in place
  when the key exists, append otherwise), `omapDel` mirrors `delete` /
  `Map.delete` (JS objects parsed from JSON have unique keys, so removing
  the first occurrence is faithful).
* Timestamps (`Date.now()`, `new Date()`) are integers (milliseconds).
  Each probe call takes a `start` and a `now` instant, standing for the
  `Date.now()` at entry and the `Date.now()`/`new Date()` at completion.
* I/O outcomes (`which.sync`, `fetch`, the MCP SDK connect/ping) are
  passed to the probe functions as explicit outcome values; thrown
  exceptions are represented by `Except.error` carrying the message the
  code would observe.
* Files on disk are `JsonFile T`: `absent` (ENOENT), `corrupt`
  (unparsable), or `ok t` (parsed content `t`). `readJson` returns
  `Option T` exactly as the TS helper returns `T | undefined`.
-/

namespace McpManager

/-- `HealthStatus` enum from `src/types.ts`. -/
inductive HealthStatus where
  | unknown
  | checking
  | binaryFound
  | commandNotFound
  | reachable
  | unreachable
  | healthy
  | degraded
  | authFailed
  | error
deriving DecidableEq, Repr

/-- `McpScope` from `src/types.ts`: `"project" | "user" | "local" | "managed"`.
`local` is a Lean keyword, so the third constructor is named `localProject`. -/
inductive McpScope where
  | project
  | user
  | localProject
  | managed
deriving DecidableEq, Repr

/-- The scope's underlying string (the TS values are the strings themselves;
`cacheKey` interpolates them). -/
def McpScope.str : McpScope → String
  | .project => "project"
  | .user => "user"
  | .localProject => "local"
  | .managed => "managed"

/-- `McpServerConfig` from `src/types.ts`: tagged union of
`StdioServerConfig {command, args?, env?, cwd?}` and
`HttpServerConfig {url, headers?}`. -/
inductive McpServerConfig where
  | stdio (command : String) (args : Option (List String))
      (env : Option (List (String × String))) (cwd : Option String)
  | http (url : String) (headers : Option (List (String × String)))
deriving DecidableEq, Repr

/-- `isStdioConfig` type guard (`"command" in config`). -/
def isStdioConfig : McpServerConfig → Bool
  | .stdio _ _ _ _ => true
  | .http _ _ => false

/-- `isHttpConfig` type guard (`"url" in config`). -/
def isHttpConfig : McpServerConfig → Bool
  | .stdio _ _ _ _ => false
  | .http _ _ => true

/-- `McpServerEntry` from `src/types.ts`. -/
structure McpServerEntry where
  name : String
  config : McpServerConfig
  scope : McpScope
  enabled : Bool
  configFilePath : String
  pluginId : Option String := none
deriving DecidableEq, Repr

/-- `HealthCheckResult` from `src/types.ts`. `checkedAt` is a millisecond
timestamp; `tier` is `1` or `2`. -/
structure HealthCheckResult where
  status : HealthStatus
  latencyMs : Option Int := none
  toolCount : Option Nat := none
  error : Option String := none
  serverInfo : Option (String × String) := none
  checkedAt : Int
  tier : Nat
deriving DecidableEq, Repr

/-! ### Ordered maps: JS objects and `Map`s -/

/-- Insertion-ordered string-keyed map (a JS object / `Map`). -/
abbrev OMap (α : Type) := List (String × α)

/-- Lookup (`m[k]` / `Map.get`): first binding for the key. -/
def omapGet {α : Type} : OMap α → String → Option α
  | [], _ => none
  | (k', v) :: rest, k => if k' = k then some v else omapGet rest k

/-- JS property assignment / `Map.set`: replace in place when the key
exists, append at the end otherwise. -/
def omapSet {α : Type} : OMap α → String → α → OMap α
  | [], k, v => [(k, v)]
  | (k', v') :: rest, k, v =>
      if k' = k then (k, v) :: rest else (k', v') :: omapSet rest k v

/-- JS `delete m[k]` / `Map.delete`: remove the first binding for the key. -/
def omapDel {α : Type} : OMap α → String → OMap α
  | [], _ => []
  | (k', v') :: rest, k =>
      if k' = k then rest else (k', v') :: omapDel rest k

/-- The keys of an ordered map, in order. -/
def omapKeys {α : Type} (m : OMap α) : List String := m.map Prod.fst

/-! ### HealthCheckService (`src/services/healthCheckService.ts`) -/

def TIER1_HTTP_TIMEOUT_MS : Nat := 5000
def TIER2_PING_TIMEOUT_MS : Nat := 5000

/-- The transient health-result cache (`private cache = new Map<string,
HealthCheckResult>()`). -/
abbrev HealthCache := OMap HealthCheckResult

/-- `cacheKey`: `` `${entry.name}:${entry.scope}` ``. -/
def cacheKey (entry : McpServerEntry) : String :=
  entry.name ++ ":" ++ entry.scope.str

/-- `getCachedResult`: returns the cached result unless absent or older
than `maxAgeMs` (expired entries are deleted). Returns the possibly
shrunk cache alongside, making the lazy deletion explicit. -/
def getCachedResult (cache : HealthCache) (entry : McpServerEntry)
    (now : Int) (maxAgeMs : Int := 5 * 60 * 1000) :
    Option HealthCheckResult × HealthCache :=
  match omapGet cache (cacheKey entry) with
  | none => (none, cache)
  | some result =>
      if now - result.checkedAt > maxAgeMs then
        (none, omapDel cache (cacheKey entry))
      else
        (some result, cache)

/-- `makeResult` helper. -/
def makeResult (status : HealthStatus) (tier : Nat) (now : Int) :
    HealthCheckResult :=
  { status := status, checkedAt := now, tier := tier }

/-- Outcome of `which.sync(command, { nothrow: true })`:
`Except.error` models the `catch` branch, `Except.ok (some p)` a resolved
path, `Except.ok none` the `null` result. -/
abbrev WhichOutcome := Except Unit (Option String)

/-- Outcome of the tier-1 `fetch` HEAD probe: a response
`(status, statusText)` or a thrown error message (connection failure,
DNS failure, or `AbortSignal` timeout). -/
abbrev FetchOutcome := Except String (Nat × String)

/-- `tier1Stdio`. -/
def tier1Stdio (command : String) (whichResult : WhichOutcome)
    (start now : Int) : HealthCheckResult :=
  match whichResult with
  | .ok (some _) =>
      { makeResult .binaryFound 1 now with latencyMs := some (now - start) }
  | .ok none =>
      { makeResult .commandNotFound 1 now with
          latencyMs := some (now - start),
          error := some ("Command \"" ++ command ++ "\" not found on PATH") }
  | .error _ =>
      { makeResult .error 1 now with
          latencyMs := some (now - start),
          error := some "Failed to check command existence" }

/-- `tier1Http`: HTTP 401/403 responses classify as `AuthFailed`, any
other response as `Reachable`, a thrown fetch error as `Unreachable`. -/
def tier1Http (fetchResult : FetchOutcome) (start now : Int) :
    HealthCheckResult :=
  match fetchResult with
  | .ok (status, statusText) =>
      if status = 401 ∨ status = 403 then
        { makeResult .authFailed 1 now with
            latencyMs := some (now - start),
            error := some ("HTTP " ++ toString status ++ " " ++ statusText) }
      else
        { makeResult .reachable 1 now with latencyMs := some (now - start) }
  | .error msg =>
      { makeResult .unreachable 1 now with
          latencyMs := some (now - start),
          error := some msg }

/-- The I/O environment a tier-1 check may consult (only the branch
matching the entry's config shape is used). -/
structure Tier1IO where
  whichResult : WhichOutcome
  fetchResult : FetchOutcome

/-- `checkTier1`: disabled entries short-circuit to `Unknown` without
touching the cache; otherwise the stdio/http sub-probe runs and its
result is stored in the cache under `cacheKey entry`. -/
def checkTier1 (entry : McpServerEntry) (io : Tier1IO) (start now : Int)
    (cache : HealthCache) : HealthCheckResult × HealthCache :=
  if entry.enabled = false then
    (makeResult .unknown 1 now, cache)
  else
    let result :=
      if isStdioConfig entry.config then
        match entry.config with
        | .stdio command _ _ _ => tier1Stdio command io.whichResult start now
        | .http _ _ => makeResult .unknown 1 now
      else if isHttpConfig entry.config then
        tier1Http io.fetchResult start now
      else
        makeResult .unknown 1 now
    (result, omapSet cache (cacheKey entry) result)

/-- Substring containment, `String.prototype.includes`. -/
def strIncludes (s pattern : String) : Bool :=
  decide (List.IsInfix pattern.toList s.toList)

/-- Tier-2 failure classification (the `catch` block of `checkTier2`):
`401`/`403`/`Unauthorized` are checked first, then `ENOENT`, then
`ECONNREFUSED`/`fetch failed`; everything else is `Error`. -/
def classifyTier2Error (errorMsg : String) : HealthStatus :=
  if strIncludes errorMsg "401" || strIncludes errorMsg "403"
      || strIncludes errorMsg "Unauthorized" then
    .authFailed
  else if strIncludes errorMsg "ENOENT" then
    .commandNotFound
  else if strIncludes errorMsg "ECONNREFUSED"
      || strIncludes errorMsg "fetch failed" then
    .unreachable
  else
    .error

/-- Outcome of the tier-2 connect + ping + listTools sequence:
`success tc` is a completed handshake and ping (`tc` is the `listTools`
count, `none` when `listTools` failed — non-fatal); `failure msg` is any
thrown error along the way (connect exception, connect timeout, ping
failure), carrying the error message. -/
inductive Tier2Outcome where
  | success (toolCount : Option Nat)
  | failure (msg : String)
deriving DecidableEq, Repr

/-- `checkTier2`: disabled entries short-circuit to `Unknown` without
touching the cache; a successful handshake+ping yields `Healthy`; any
failure is classified from its message by `classifyTier2Error`. Both
outcomes overwrite the cache entry for `cacheKey entry`. -/
def checkTier2 (entry : McpServerEntry) (outcome : Tier2Outcome)
    (start now : Int) (cache : HealthCache) :
    HealthCheckResult × HealthCache :=
  if entry.enabled = false then
    (makeResult .unknown 2 now, cache)
  else
    match outcome with
    | .success toolCount =>
        let result : HealthCheckResult :=
          { status := .healthy, latencyMs := some (now - start),
            toolCount := toolCount, checkedAt := now, tier := 2 }
        (result, omapSet cache (cacheKey entry) result)
    | .failure msg =>
        let result : HealthCheckResult :=
          { status := classifyTier2Error msg,
            latencyMs := some (now - start), error := some msg,
            checkedAt := now, tier := 2 }
        (result, omapSet cache (cacheKey entry) result)

/-! ### RankingPolicy (`getServerItems` in the tree-data provider) -/

/-- `HEALTH_SORT_PRIORITY` table from `src/types.ts`. -/
def HEALTH_SORT_PRIORITY : HealthStatus → Nat
  | .healthy => 0
  | .binaryFound => 0
  | .reachable => 0
  | .checking => 1
  | .unknown => 2
  | .degraded => 3
  | .commandNotFound => 3
  | .unreachable => 3
  | .authFailed => 3
  | .error => 3

/-- `HEALTH_SORT_PRIORITY_DEFAULT` from `src/types.ts`. -/
def HEALTH_SORT_PRIORITY_DEFAULT : Nat := 2

/-- Primary collation weight under the ICU root locale, modelled as the
lowercased code point. This coincides with the real root collation
exactly on ASCII alphanumerics: digits `0`-`9` ascending, then letters
alphabetically and case-insensitively — but *not* on punctuation or
symbols, which ICU orders differently from code points (e.g. `_` sorts
before `-`, and `@` before `0`). The ranking theorem therefore
restricts its tie-order statement to alphanumeric names
(`isAsciiAlphanum`). -/
def collPrimary (c : Char) : Nat := c.toLower.toNat

/-- Tertiary (case) collation weight: on ASCII letters, lowercase sorts
before uppercase under the root locale (`"a".localeCompare("A") < 0` in
Node). -/
def collCase (c : Char) : Nat := if c.isUpper then 1 else 0

/-- ASCII digits and letters: the character class on which the
collation model `collPrimary`/`collCase` agrees with the ICU root
collation used by Node's `localeCompare`. -/
def isAsciiAlphanum (c : Char) : Bool :=
  decide ((48 ≤ c.toNat ∧ c.toNat ≤ 57) ∨ (65 ≤ c.toNat ∧ c.toNat ≤ 90) ∨
    (97 ≤ c.toNat ∧ c.toNat ≤ 122))

/-- Lexicographic comparison of weight lists. -/
def lexCmpNat : List Nat → List Nat → Ordering
  | [], [] => .eq
  | [], _ :: _ => .lt
  | _ :: _, [] => .gt
  | a :: as, b :: bs => (compare a b).then (lexCmpNat as bs)

/-- Embedding of `String.prototype.localeCompare` under the default
(root) locale: compare primary weights of the whole strings first
(case-insensitive), then case weights (lowercase before uppercase).
ECMA-402 leaves the concrete order to the host's collator; Node uses
ICU root collation by default, and this embedding reproduces it
exactly for strings of ASCII alphanumerics (`isAsciiAlphanum`) — names
containing punctuation or symbols are outside its faithful domain, and
theorems about the tie order are restricted accordingly. -/
def localeCmp (s t : String) : Ordering :=
  (lexCmpNat (s.toList.map collPrimary) (t.toList.map collPrimary)).then
    (lexCmpNat (s.toList.map collCase) (t.toList.map collCase))

/-- `a.localeCompare(b)` as an integer in `{-1, 0, 1}`. -/
def localeCompare (s t : String) : Int :=
  match localeCmp s t with
  | .lt => -1
  | .eq => 0
  | .gt => 1

/-- A rendered server item: the entry together with the health result
looked up from the provider's `healthResults` map (a `McpServerItem`). -/
abbrev ServerItem := McpServerEntry × Option HealthCheckResult

/-- The sort priority of an item: `HEALTH_SORT_PRIORITY[status]` when a
health result is present, `HEALTH_SORT_PRIORITY_DEFAULT` otherwise. -/
def itemPriority (r : Option HealthCheckResult) : Nat :=
  match r with
  | some res => HEALTH_SORT_PRIORITY res.status
  | none => HEALTH_SORT_PRIORITY_DEFAULT

/-- The sort comparator of `getServerItems`: priority difference first,
`localeCompare` of the names on ties. -/
def itemCompare (a b : ServerItem) : Int :=
  let pa := itemPriority a.2
  let pb := itemPriority b.2
  if pa ≠ pb then (pa : Int) - (pb : Int)
  else localeCompare a.1.name b.1.name

/-- `getServerItems`: filter the servers of one scope, attach each one's
health result (looked up by `cacheKey`), and sort with `itemCompare`.
JS `Array.prototype.sort` is a stable comparator sort, modelled by
`List.mergeSort`. The tiebreak comparator embedding is exact for ASCII
alphanumeric names; see `localeCmp`. -/
def getServerItems (servers : List McpServerEntry)
    (healthResults : HealthCache) (scope : McpScope) : List ServerItem :=
  ((servers.filter (fun s => decide (s.scope = scope))).map
    (fun s => (s, omapGet healthResults (cacheKey s)))).mergeSort
    (fun a b => decide (itemCompare a b ≤ 0))

/-- Modelled from the spec's words (claim C3), for comparison with
`getServerItems`: the same ranking but with ties broken by
case-sensitive code-point comparison of the names (Lean's `String`
order is exactly code-point lexicographic order). -/
def getServerItemsCodePointSpec (servers : List McpServerEntry)
    (healthResults : HealthCache) (scope : McpScope) : List ServerItem :=
  ((servers.filter (fun s => decide (s.scope = scope))).map
    (fun s => (s, omapGet healthResults (cacheKey s)))).mergeSort
    (fun a b =>
      let pa := itemPriority a.2
      let pb := itemPriority b.2
      if pa ≠ pb then decide (pa ≤ pb) else decide (a.1.name ≤ b.1.name))

/-! ### ConfigService (`src/services/configService.ts`) -/

/-- A JSON file on disk, as `readJson` distinguishes its states:
missing (ENOENT), present but unparsable, or parsed content. -/
inductive JsonFile (α : Type) where
  | absent
  | corrupt
  | ok (value : α)
deriving DecidableEq, Repr

/-- `readJson`: `undefined` on a missing or malformed file. -/
def readJson {α : Type} : JsonFile α → Option α
  | .absent => none
  | .corrupt => none
  | .ok v => some v

/-- `readJson` together with the user-visible warning it shows when the
file exists but cannot be parsed (missing files warn nothing). -/
def readJsonW {α : Type} (f : JsonFile α) (filePath : String) :
    Option α × List String :=
  match f with
  | .absent => (none, [])
  | .corrupt => (none, ["MCP Manager: Failed to parse " ++ filePath])
  | .ok v => (some v, [])

/-- `os.homedir()`, modelled as an opaque constant path. -/
def homedirPath : String := "/home/user"

/-- `~/.claude.json`. -/
def claudeGlobalPath : String := homedirPath ++ "/.claude.json"

/-- `managedConfigPath` (the Linux branch of the platform switch). -/
def managedConfigPath : String := "/etc/claude-code/managed-mcp.json"

/-- `~/.claude/plugins/installed_plugins.json`. -/
def installedPluginsPath : String :=
  homedirPath ++ "/.claude/plugins/installed_plugins.json"

/-- `~/.claude/settings.json`. -/
def claudeSettingsPath : String := homedirPath ++ "/.claude/settings.json"

/-- `mcpJsonPath`: `<workspaceRoot>/.mcp.json` when a workspace is open. -/
def mcpJsonPath (workspaceRoot : Option String) : Option String :=
  workspaceRoot.map (fun root => root ++ "/.mcp.json")

/-- `settingsLocalPath`: `<workspaceRoot>/.claude/settings.local.json`
when a workspace is open. -/
def settingsLocalPath (workspaceRoot : Option String) : Option String :=
  workspaceRoot.map (fun root => root ++ "/.claude/settings.local.json")

/-- `pluginMcpConfigPath`: `<installPath>/.mcp.json`. -/
def pluginMcpConfigPath (installPath : String) : String :=
  installPath ++ "/.mcp.json"

/-- One `{mcpServers?, _disabled_mcpServers?}` block of `~/.claude.json`
(the top level, or one `projects[...]` block). `disabledMcpServers`
models the `_disabled_mcpServers` key; `extra` stands for the object's
other keys (the index signature), which the code never touches. -/
structure ServerBlock where
  mcpServers : Option (OMap McpServerConfig) := none
  disabledMcpServers : Option (OMap McpServerConfig) := none
  extra : OMap String := []
deriving DecidableEq, Repr

/-- `ClaudeGlobalConfig` (`~/.claude.json`). Its top-level
`mcpServers`/`_disabled_mcpServers` keys are the `block` field — this is
the view `moveServerKey` receives when toggling a user-scope server. -/
structure ClaudeGlobalConfig where
  block : ServerBlock := {}
  projects : Option (OMap ServerBlock) := none
  extra : OMap String := []
deriving DecidableEq, Repr

/-- `McpJsonConfig` (`.mcp.json` at the workspace root). -/
structure McpJsonConfig where
  mcpServers : Option (OMap McpServerConfig) := none
  extra : OMap String := []
deriving DecidableEq, Repr

/-- `SettingsLocal` (`.claude/settings.local.json`). -/
structure SettingsLocal where
  disabledMcpjsonServers : Option (List String) := none
  extra : OMap String := []
deriving DecidableEq, Repr

/-- `ManagedMcpConfig`. -/
structure ManagedMcpConfig where
  mcpServers : Option (OMap McpServerConfig) := none
  extra : OMap String := []
deriving DecidableEq, Repr

/-- `ClaudeSettings` (`~/.claude/settings.json`). -/
structure ClaudeSettings where
  enabledPlugins : Option (OMap Bool) := none
  extra : OMap String := []
deriving DecidableEq, Repr

/-- The `scope` attribute of a plugin installation. -/
inductive PluginScope where
  | project
  | global
deriving DecidableEq, Repr

/-- A well-formed `PluginInstallation` record. The fields `version`,
`installedAt`, `lastUpdated`, `gitCommitSha` are never read by
`readPluginServers` and are omitted. -/
structure GoodInstallation where
  scope : PluginScope
  projectPath : Option String := none
  installPath : String
deriving DecidableEq, Repr

/-- One element of a plugin's installation list. `corrupt` stands for a
malformed record (e.g. `installPath` missing or not a string), on which
the reader's property accesses throw a `TypeError` — caught by the
per-plugin `try/catch`. -/
inductive PluginInstallation where
  | corrupt
  | good (installation : GoodInstallation)
deriving DecidableEq, Repr

/-- A value of `registry.plugins`: the v2 array-of-installations shape
or the v1 single-object shape. -/
inductive PluginInstallations where
  | arr (installations : List PluginInstallation)
  | single (installation : PluginInstallation)
deriving DecidableEq, Repr

/-- `InstalledPluginsFile`. The `version` field is never read. -/
structure InstalledPluginsFile where
  plugins : Option (OMap PluginInstallations) := none
  extra : OMap String := []
deriving DecidableEq, Repr

/-- A plugin's own `.mcp.json` parsed as a raw record: either the
`{ mcpServers: {...} }` wrapper shape or the flat `{ name: config }`
shape (the code checks for an `mcpServers` key and otherwise treats the
top-level keys as servers). -/
inductive PluginMcpRaw where
  | wrapped (mcpServers : OMap McpServerConfig)
  | flat (servers : OMap McpServerConfig)
deriving DecidableEq, Repr

/-- The files the ConfigService touches. `pluginConfigs` is keyed by the
absolute path of each plugin's `.mcp.json`. -/
structure FsState where
  claudeGlobal : JsonFile ClaudeGlobalConfig := .absent
  mcpJson : JsonFile McpJsonConfig := .absent
  settingsLocal : JsonFile SettingsLocal := .absent
  managedConfig : JsonFile ManagedMcpConfig := .absent
  installedPlugins : JsonFile InstalledPluginsFile := .absent
  claudeSettings : JsonFile ClaudeSettings := .absent
  pluginConfigs : OMap (JsonFile PluginMcpRaw) := []
deriving DecidableEq, Repr

/-- `readProjectServers`: `.mcp.json` servers cross-referenced with the
`disabledMcpjsonServers` list of `.claude/settings.local.json`. -/
def readProjectServers (fs : FsState) (workspaceRoot : Option String) :
    List McpServerEntry :=
  match mcpJsonPath workspaceRoot with
  | none => []
  | some mcpPath =>
      let mcpJson := readJson fs.mcpJson
      let settingsLocal := readJson fs.settingsLocal
      match mcpJson.bind (fun c => c.mcpServers) with
      | none => []
      | some servers =>
          let disabledSet :=
            (settingsLocal.bind (fun s => s.disabledMcpjsonServers)).getD []
          servers.map (fun p =>
            { name := p.1, config := p.2, scope := .project,
              enabled := !(disabledSet.contains p.1),
              configFilePath := mcpPath })

/-- `readUserServers`: top-level `mcpServers` (enabled) and
`_disabled_mcpServers` (disabled) of `~/.claude.json`. -/
def readUserServers (fs : FsState) : List McpServerEntry :=
  match readJson fs.claudeGlobal with
  | none => []
  | some globalConfig =>
      (match globalConfig.block.mcpServers with
       | none => []
       | some m => m.map (fun p =>
           { name := p.1, config := p.2, scope := .user, enabled := true,
             configFilePath := claudeGlobalPath })) ++
      (match globalConfig.block.disabledMcpServers with
       | none => []
       | some m => m.map (fun p =>
           { name := p.1, config := p.2, scope := .user, enabled := false,
             configFilePath := claudeGlobalPath }))

/-- `readLocalServers`: the two maps of
`projects[workspaceRoot]` inside `~/.claude.json`. -/
def readLocalServers (fs : FsState) (workspaceRoot : Option String) :
    List McpServerEntry :=
  match workspaceRoot with
  | none => []
  | some root =>
      match (readJson fs.claudeGlobal).bind (fun gc =>
          gc.projects.bind (fun ps => omapGet ps root)) with
      | none => []
      | some projectBlock =>
          (match projectBlock.mcpServers with
           | none => []
           | some m => m.map (fun p =>
               { name := p.1, config := p.2, scope := .localProject,
                 enabled := true, configFilePath := claudeGlobalPath })) ++
          (match projectBlock.disabledMcpServers with
           | none => []
           | some m => m.map (fun p =>
               { name := p.1, config := p.2, scope := .localProject,
                 enabled := false, configFilePath := claudeGlobalPath }))

/-- `readManagedServers`: every entry is forced `enabled := true` with
scope `managed`. -/
def readManagedServers (fs : FsState) : List McpServerEntry :=
  match (readJson fs.managedConfig).bind (fun c => c.mcpServers) with
  | none => []
  | some m =>
      m.map (fun p =>
        { name := p.1, config := p.2, scope := .managed, enabled := true,
          configFilePath := managedConfigPath })

/-- `String.prototype.startsWith`, via character lists (kernel-reducible). -/
def strStartsWith (s pre : String) : Bool := pre.toList.isPrefixOf s.toList

/-- `String.prototype.endsWith`, via character lists (kernel-reducible). -/
def strEndsWith (s suf : String) : Bool := suf.toList.isSuffixOf s.toList

/-- Normalize the v1 (single object) vs v2 (array) registry shape. -/
def normalizeInstallations : PluginInstallations → List PluginInstallation
  | .arr l => l
  | .single i => [i]

/-- The project-scope workspace filter of `readPluginServers`: a
`"project"`-scoped installation is kept only when a workspace is open,
the installation carries a `projectPath`, and the workspace equals the
project path or lies strictly under it. -/
def projectScopeMatches (g : GoodInstallation)
    (workspaceRoot : Option String) : Bool :=
  if g.scope = .project then
    match workspaceRoot, g.projectPath with
    | some root, some pp =>
        let normalizedProject := if strEndsWith pp "/" then pp else pp ++ "/"
        decide (root = pp) || strStartsWith root normalizedProject
    | _, _ => false
  else
    true

/-- Processing of one well-formed installation inside the loop of
`readPluginServers`: resolve `~`, apply the workspace filter, read the
plugin's own `.mcp.json`, unwrap its servers, derive scope (with the
ancestor-path promotion to user scope), derive enabled from the
`enabledPlugins` registry (`!== false`, fail-open), deduplicate by
`pluginId:scope`, and emit one entry per server. Returns the entries and
the updated `seen` set. -/
def processInstallation (fs : FsState) (workspaceRoot : Option String)
    (pluginId : String) (enabledMap : OMap Bool) (g : GoodInstallation)
    (seen : List String) : List McpServerEntry × List String :=
  let installPath :=
    if strStartsWith g.installPath "~" then
      homedirPath ++ String.mk (g.installPath.toList.drop 1)
    else g.installPath
  if projectScopeMatches g workspaceRoot = false then ([], seen)
  else
    let mcpConfigPath := pluginMcpConfigPath installPath
    match readJson ((omapGet fs.pluginConfigs mcpConfigPath).getD .absent) with
    | none => ([], seen)
    | some raw =>
        let servers := match raw with | .wrapped m => m | .flat m => m
        if servers.isEmpty then ([], seen)
        else
          let scope : McpScope :=
            if g.scope = .global then .user
            else
              match g.projectPath, workspaceRoot with
              | some pp, some root =>
                  if pp ≠ root then .user else .localProject
              | _, _ => .localProject
          let enabled := !(omapGet enabledMap pluginId == some false)
          let dedupeKey := pluginId ++ ":" ++ scope.str
          if seen.contains dedupeKey then ([], seen)
          else
            (servers.map (fun p =>
              { name := p.1, config := p.2, scope := scope,
                enabled := enabled, configFilePath := mcpConfigPath,
                pluginId := some pluginId }),
             seen ++ [dedupeKey])

/-- The per-plugin installation loop. A `corrupt` installation throws;
the per-plugin `catch` then abandons the rest of this plugin's list
(entries already pushed by earlier installations are kept, as is the
`seen` set accumulated so far). -/
def processInstallations (fs : FsState) (workspaceRoot : Option String)
    (pluginId : String) (enabledMap : OMap Bool) :
    List PluginInstallation → List String →
    List McpServerEntry × List String
  | [], seen => ([], seen)
  | .corrupt :: _, seen => ([], seen)
  | .good g :: rest, seen =>
      let step := processInstallation fs workspaceRoot pluginId enabledMap g seen
      let next := processInstallations fs workspaceRoot pluginId enabledMap rest step.2
      (step.1 ++ next.1, next.2)

/-- The outer loop of `readPluginServers` over the registry's plugins,
threading the shared `seen` dedupe set. -/
def processPlugins (fs : FsState) (workspaceRoot : Option String)
    (enabledMap : OMap Bool) :
    List (String × PluginInstallations) → List String → List McpServerEntry
  | [], _ => []
  | (pluginId, raw) :: rest, seen =>
      let step := processInstallations fs workspaceRoot pluginId enabledMap
        (normalizeInstallations raw) seen
      step.1 ++ processPlugins fs workspaceRoot enabledMap rest step.2

/-- `readPluginServers`. -/
def readPluginServers (fs : FsState) (workspaceRoot : Option String) :
    List McpServerEntry :=
  match readJson fs.installedPlugins with
  | none => []
  | some registry =>
      match registry.plugins with
      | none => []
      | some plugins =>
          let enabledMap :=
            ((readJson fs.claudeSettings).bind
              (fun s => s.enabledPlugins)).getD []
          processPlugins fs workspaceRoot enabledMap plugins []

/-- `getAllServers`: the five sources, concatenated in order. -/
def getAllServers (fs : FsState) (workspaceRoot : Option String) :
    List McpServerEntry :=
  readProjectServers fs workspaceRoot ++ readUserServers fs ++
    readLocalServers fs workspaceRoot ++ readManagedServers fs ++
    readPluginServers fs workspaceRoot

/-- `moveServerKey`: move a server's config between `mcpServers` and
`_disabled_mcpServers` within one block, creating the target map when
needed and deleting `_disabled_mcpServers` when it becomes empty. -/
def moveServerKey (block : ServerBlock) (entry : McpServerEntry) :
    ServerBlock :=
  if entry.enabled then
    match block.mcpServers.bind (fun m => omapGet m entry.name) with
    | some cfg =>
        { block with
            disabledMcpServers :=
              some (omapSet (block.disabledMcpServers.getD []) entry.name cfg),
            mcpServers :=
              some (omapDel (block.mcpServers.getD []) entry.name) }
    | none => block
  else
    match block.disabledMcpServers.bind (fun m => omapGet m entry.name) with
    | some cfg =>
        let parked := omapDel (block.disabledMcpServers.getD []) entry.name
        { block with
            mcpServers :=
              some (omapSet (block.mcpServers.getD []) entry.name cfg),
            disabledMcpServers :=
              if parked = [] then none else some parked }
    | none => block

/-- Strategy A, `toggleClaudeJsonServer`: read `~/.claude.json` fresh,
apply `moveServerKey` to the top-level block (user scope) or the
workspace's `projects` block (local scope; silently returning without a
write when no workspace is open), and write the whole store back. -/
def toggleClaudeJsonServer (fs : FsState) (workspaceRoot : Option String)
    (entry : McpServerEntry) : FsState × List String :=
  let read := readJsonW fs.claudeGlobal claudeGlobalPath
  let globalConfig := read.1.getD {}
  match entry.scope with
  | .user =>
      let globalConfig' :=
        { globalConfig with block := moveServerKey globalConfig.block entry }
      ({ fs with claudeGlobal := .ok globalConfig' }, read.2)
  | .localProject =>
      match workspaceRoot with
      | none => (fs, read.2)
      | some root =>
          let projects := globalConfig.projects.getD []
          let projectBlock := (omapGet projects root).getD {}
          let projectBlock' := moveServerKey projectBlock entry
          let globalConfig' :=
            { globalConfig with
                projects := some (omapSet projects root projectBlock') }
          ({ fs with claudeGlobal := .ok globalConfig' }, read.2)
  | _ => ({ fs with claudeGlobal := .ok globalConfig }, read.2)

/-- Strategy B, `toggleProjectServer`: maintain the
`disabledMcpjsonServers` list in `.claude/settings.local.json`; a
missing workspace root returns silently before any read or write. -/
def toggleProjectServer (fs : FsState) (workspaceRoot : Option String)
    (entry : McpServerEntry) : FsState × List String :=
  match settingsLocalPath workspaceRoot with
  | none => (fs, [])
  | some settingsPath =>
      let read := readJsonW fs.settingsLocal settingsPath
      let settings := read.1.getD {}
      let disabled := settings.disabledMcpjsonServers.getD []
      let disabled' :=
        if entry.enabled then
          if disabled.contains entry.name then disabled
          else disabled ++ [entry.name]
        else
          disabled.erase entry.name
      let settings' :=
        { settings with disabledMcpjsonServers := some disabled' }
      ({ fs with settingsLocal := .ok settings' }, read.2)

/-- Strategy C, `togglePlugin`: flip the plugin's boolean in the
`enabledPlugins` map of `~/.claude/settings.json`. The dispatcher only
calls this when `entry.pluginId` is present (`entry.pluginId!`); the
`"undefined"` fallback mirrors JS's key coercion for the impossible
`none` case. -/
def togglePlugin (fs : FsState) (entry : McpServerEntry) :
    FsState × List String :=
  let read := readJsonW fs.claudeSettings claudeSettingsPath
  let settings := read.1.getD {}
  let enabledPlugins := settings.enabledPlugins.getD []
  let pid := entry.pluginId.getD "undefined"
  let settings' :=
    { settings with
        enabledPlugins := some (omapSet enabledPlugins pid (!entry.enabled)) }
  ({ fs with claudeSettings := .ok settings' }, read.2)

/-- `toggleServer`, the dispatcher: Managed is rejected with a warning
(first, before anything else); a present `pluginId` routes to Strategy C;
Project scope to Strategy B; User/LocalPerProject to Strategy A. -/
def toggleServer (fs : FsState) (workspaceRoot : Option String)
    (entry : McpServerEntry) : FsState × List String :=
  if entry.scope = .managed then
    (fs, ["Managed MCP servers cannot be toggled."])
  else if entry.pluginId.isSome then
    togglePlugin fs entry
  else if entry.scope = .project then
    toggleProjectServer fs workspaceRoot entry
  else
    toggleClaudeJsonServer fs workspaceRoot entry

/-! ### Lemmas about ordered maps -/

theorem omapGet_omapSet_self {α : Type} (m : OMap α) (k : String) (v : α) :
    omapGet (omapSet m k v) k = some v := by
  induction m with
  | nil => simp [omapSet, omapGet]
  | cons p rest ih =>
      obtain ⟨k', v'⟩ := p
      by_cases h : k' = k
      · simp [omapSet, h, omapGet]
      · simp [omapSet, h, omapGet, ih]

theorem omapGet_eq_none_iff {α : Type} {m : OMap α} {k : String} :
    omapGet m k = none ↔ k ∉ omapKeys m := by
  induction m with
  | nil => simp [omapGet, omapKeys]
  | cons p rest ih =>
      obtain ⟨k', v'⟩ := p
      by_cases h : k' = k
      · simp [omapGet, h, omapKeys]
      · simp [omapGet, h, omapKeys, ih, Ne.symm h]

theorem omapSet_of_get_none {α : Type} {m : OMap α} {k : String}
    (h : omapGet m k = none) (v : α) : omapSet m k v = m ++ [(k, v)] := by
  induction m with
  | nil => simp [omapSet]
  | cons p rest ih =>
      obtain ⟨k', v'⟩ := p
      by_cases hk : k' = k
      · simp [omapGet, hk] at h
      · simp [omapGet, hk] at h
        simp [omapSet, hk, ih h]

theorem omapDel_omapSet_of_get_none {α : Type} {m : OMap α} {k : String}
    (h : omapGet m k = none) (v : α) : omapDel (omapSet m k v) k = m := by
  induction m with
  | nil => simp [omapSet, omapDel]
  | cons p rest ih =>
      obtain ⟨k', v'⟩ := p
      by_cases hk : k' = k
      · simp [omapGet, hk] at h
      · simp [omapGet, hk] at h
        simp [omapSet, hk, omapDel, ih h]

theorem omapGet_omapDel_of_nodup {α : Type} {m : OMap α}
    (h : (omapKeys m).Nodup) (k : String) :
    omapGet (omapDel m k) k = none := by
  induction m with
  | nil => simp [omapDel, omapGet]
  | cons p rest ih =>
      obtain ⟨k', v'⟩ := p
      simp [omapKeys] at h
      by_cases hk : k' = k
      · subst hk
        simp [omapDel]
        exact omapGet_eq_none_iff.mpr (by simpa [omapKeys] using h.1)
      · simp [omapDel, hk, omapGet, ih h.2]

theorem omapSet_omapSet_self {α : Type} (m : OMap α) (k : String) (v₁ v₂ : α) :
    omapSet (omapSet m k v₁) k v₂ = omapSet m k v₂ := by
  induction m with
  | nil => simp [omapSet]
  | cons p rest ih =>
      obtain ⟨k', v'⟩ := p
      by_cases hk : k' = k
      · simp [omapSet, hk]
      · simp [omapSet, hk, ih]

theorem omapSet_get_same {α : Type} {m : OMap α} {k : String} {v : α}
    (h : omapGet m k = some v) : omapSet m k v = m := by
  induction m with
  | nil => simp [omapGet] at h
  | cons p rest ih =>
      obtain ⟨k', v'⟩ := p
      by_cases hk : k' = k
      · simp [omapGet, hk] at h
        simp [omapSet, hk, h]
      · simp [omapGet, hk] at h
        simp [omapSet, hk, ih h]

/-! ## Claim C1: tier-2 failure classification priority -/

/-- C1 counterexample: the code checks the auth indicators before the
missing-executable indicator, so a tier-2 failure message containing
both `"ENOENT"` and `"401"` classifies as `AuthFailed`, not
`CommandNotFound` as the claim states. -/
theorem c1_counterexample :
    strIncludes "spawn node ENOENT after HTTP 401" "ENOENT" = true ∧
    strIncludes "spawn node ENOENT after HTTP 401" "401" = true ∧
    classifyTier2Error "spawn node ENOENT after HTTP 401" =
      HealthStatus.authFailed ∧
    (checkTier2
        { name := "srv", config := .stdio "node" none none none,
          scope := .user, enabled := true, configFilePath := "/w/.mcp.json" }
        (.failure "spawn node ENOENT after HTTP 401") 0 5 []).1.status =
      HealthStatus.authFailed ∧
    HealthStatus.authFailed ≠ HealthStatus.commandNotFound := by
  decide

/-- C1 (amended): for every enabled entry, a failing tier-2 probe is
classified by matching the failure message in the code's priority order:
`401`/`403`/`Unauthorized` indicators first (`AuthFailed`), then
`ENOENT` (`CommandNotFound`), then `ECONNREFUSED`/`fetch failed`
(`Unreachable`), and everything else `Error`. In particular a message
containing both an auth indicator and `ENOENT` classifies as
`AuthFailed`. -/
theorem c1_tier2_failure_priority (entry : McpServerEntry) (msg : String)
    (start now : Int) (cache : HealthCache) (hEn : entry.enabled = true) :
    (((strIncludes msg "401" || strIncludes msg "403" ||
        strIncludes msg "Unauthorized") = true) →
      (checkTier2 entry (.failure msg) start now cache).1.status =
        HealthStatus.authFailed) ∧
    (((strIncludes msg "401" || strIncludes msg "403" ||
        strIncludes msg "Unauthorized") = false) →
      strIncludes msg "ENOENT" = true →
      (checkTier2 entry (.failure msg) start now cache).1.status =
        HealthStatus.commandNotFound) ∧
    (((strIncludes msg "401" || strIncludes msg "403" ||
        strIncludes msg "Unauthorized") = false) →
      strIncludes msg "ENOENT" = false →
      ((strIncludes msg "ECONNREFUSED" || strIncludes msg "fetch failed")
        = true) →
      (checkTier2 entry (.failure msg) start now cache).1.status =
        HealthStatus.unreachable) ∧
    (((strIncludes msg "401" || strIncludes msg "403" ||
        strIncludes msg "Unauthorized") = false) →
      strIncludes msg "ENOENT" = false →
      ((strIncludes msg "ECONNREFUSED" || strIncludes msg "fetch failed")
        = false) →
      (checkTier2 entry (.failure msg) start now cache).1.status =
        HealthStatus.error) := by
  refine ⟨fun h1 => ?_, fun h1 h2 => ?_, fun h1 h2 h3 => ?_,
    fun h1 h2 h3 => ?_⟩ <;>
    simp [checkTier2, hEn, classifyTier2Error, h1, *]

/-- Witness for `c1_tier2_failure_priority` at a concrete entry and
message. -/
theorem c1_tier2_failure_priority_witness :
    (checkTier2
        { name := "srv", config := .http "http://localhost:3000" none,
          scope := .user, enabled := true, configFilePath := "/h/.claude.json" }
        (.failure "HTTP 401 Unauthorized") 0 7 []).1.status =
      HealthStatus.authFailed :=
  (c1_tier2_failure_priority
      { name := "srv", config := .http "http://localhost:3000" none,
        scope := .user, enabled := true, configFilePath := "/h/.claude.json" }
      "HTTP 401 Unauthorized" 0 7 [] rfl).1 (by decide)

/-! ## Claim C6: tier-1 HTTP probe classification -/

/-- C6: for every enabled network-endpoint entry, the tier-1 HTTP probe
classifies a 401/403 response as `AuthFailed`, any other response
(including 404 and other 4xx/5xx) as `Reachable`, and a thrown network
error (connection failure, DNS failure, timeout) as `Unreachable`. -/
theorem c6_tier1_http_classification (entry : McpServerEntry) (url : String)
    (headers : Option (List (String × String))) (io : Tier1IO)
    (start now : Int) (cache : HealthCache)
    (hEn : entry.enabled = true) (hCfg : entry.config = .http url headers) :
    (∀ status statusText, io.fetchResult = .ok (status, statusText) →
      ¬(status = 401 ∨ status = 403) →
      (checkTier1 entry io start now cache).1.status =
        HealthStatus.reachable) ∧
    (∀ status statusText, io.fetchResult = .ok (status, statusText) →
      (status = 401 ∨ status = 403) →
      (checkTier1 entry io start now cache).1.status =
        HealthStatus.authFailed) ∧
    (∀ msg, io.fetchResult = .error msg →
      (checkTier1 entry io start now cache).1.status =
        HealthStatus.unreachable) := by
  refine ⟨fun status statusText hf h4 => ?_, fun status statusText hf h4 => ?_,
    fun msg hf => ?_⟩ <;>
    simp [checkTier1, hEn, hCfg, isStdioConfig, isHttpConfig, tier1Http,
      makeResult, *]

/-- Witness for `c6_tier1_http_classification`: a 404 response on a
concrete enabled HTTP entry classifies as `Reachable`. -/
theorem c6_tier1_http_classification_witness :
    (checkTier1
        { name := "web", config := .http "http://localhost:9" none,
          scope := .project, enabled := true, configFilePath := "/w/.mcp.json" }
        { whichResult := .ok none, fetchResult := .ok (404, "Not Found") }
        0 3 []).1.status = HealthStatus.reachable :=
  (c6_tier1_http_classification
      { name := "web", config := .http "http://localhost:9" none,
        scope := .project, enabled := true, configFilePath := "/w/.mcp.json" }
      "http://localhost:9" none
      { whichResult := .ok none, fetchResult := .ok (404, "Not Found") }
      0 3 [] rfl rfl).1 404 "Not Found" rfl (by decide)

/-! ## Claim C7: cache expiry and cross-tier overwrite -/

/-- C7: (i) a cached result older than the expiry window is treated as
absent on the next read and removed at that read; (ii) a completed
tier-1 probe stores its (tier-1) result under the entry's cache key,
overwriting whatever was cached before; (iii) likewise for tier-2 — so
a newer probe of either tier replaces the cached result regardless of
the previously cached tier. -/
theorem c7_cache_expiry_and_overwrite :
    (∀ (cache : HealthCache) (entry : McpServerEntry)
        (r : HealthCheckResult) (now maxAgeMs : Int),
      omapGet cache (cacheKey entry) = some r →
      now - r.checkedAt > maxAgeMs →
      getCachedResult cache entry now maxAgeMs =
        (none, omapDel cache (cacheKey entry))) ∧
    (∀ (cache : HealthCache) (entry : McpServerEntry) (io : Tier1IO)
        (start now : Int),
      entry.enabled = true →
      (checkTier1 entry io start now cache).1.tier = 1 ∧
      omapGet (checkTier1 entry io start now cache).2 (cacheKey entry) =
        some (checkTier1 entry io start now cache).1) ∧
    (∀ (cache : HealthCache) (entry : McpServerEntry) (oc : Tier2Outcome)
        (start now : Int),
      entry.enabled = true →
      (checkTier2 entry oc start now cache).1.tier = 2 ∧
      omapGet (checkTier2 entry oc start now cache).2 (cacheKey entry) =
        some (checkTier2 entry oc start now cache).1) := by
  refine ⟨fun cache entry r now maxAgeMs h1 h2 => ?_,
    fun cache entry io start now hEn => ⟨?_, ?_⟩,
    fun cache entry oc start now hEn => ⟨?_, ?_⟩⟩
  · simp [getCachedResult, h1, h2]
  · cases hc : entry.config with
    | stdio command args env cwd =>
        cases hw : io.whichResult with
        | ok r =>
            cases r <;>
              simp [checkTier1, hEn, hc, isStdioConfig, tier1Stdio, hw,
                makeResult]
        | error u =>
            simp [checkTier1, hEn, hc, isStdioConfig, tier1Stdio, hw,
              makeResult]
    | http url headers =>
        cases hf : io.fetchResult with
        | ok p =>
            obtain ⟨st, sx⟩ := p
            by_cases h4 : st = 401 ∨ st = 403 <;>
              simp [checkTier1, hEn, hc, isStdioConfig, isHttpConfig,
                tier1Http, hf, makeResult, h4]
        | error m =>
            simp [checkTier1, hEn, hc, isStdioConfig, isHttpConfig,
              tier1Http, hf, makeResult]
  · simp [checkTier1, hEn, omapGet_omapSet_self]
  · cases oc <;> simp [checkTier2, hEn]
  · cases oc <;> simp [checkTier2, hEn, omapGet_omapSet_self]

/-- Witness for `c7_cache_expiry_and_overwrite`: an expired entry is
dropped on read, and a tier-2 result overwrites a cached tier-1 result
for the same identity. -/
theorem c7_cache_expiry_and_overwrite_witness :
    (getCachedResult
        [("srv:user",
          { status := .reachable, checkedAt := 0, tier := 1 })]
        { name := "srv", config := .http "http://x" none, scope := .user,
          enabled := true, configFilePath := "/h/.claude.json" }
        300001 300000 =
      (none, [])) ∧
    omapGet
        (checkTier2
          { name := "srv", config := .http "http://x" none, scope := .user,
            enabled := true, configFilePath := "/h/.claude.json" }
          (.success (some 2)) 0 5
          [("srv:user",
            { status := .reachable, checkedAt := 0, tier := 1 })]).2
        "srv:user" =
      some
        { status := .healthy, latencyMs := some 5, toolCount := some 2,
          checkedAt := 5, tier := 2 } := by
  constructor
  · exact c7_cache_expiry_and_overwrite.1
      [("srv:user", { status := .reachable, checkedAt := 0, tier := 1 })]
      { name := "srv", config := .http "http://x" none, scope := .user,
        enabled := true, configFilePath := "/h/.claude.json" }
      { status := .reachable, checkedAt := 0, tier := 1 }
      300001 300000 (by decide) (by decide)
  · have h := (c7_cache_expiry_and_overwrite.2.2
      [("srv:user", { status := .reachable, checkedAt := 0, tier := 1 })]
      { name := "srv", config := .http "http://x" none, scope := .user,
        enabled := true, configFilePath := "/h/.claude.json" }
      (.success (some 2)) 0 5 rfl).2
    simpa [checkTier2, cacheKey, McpScope.str] using h

/-! ## Claim C4: managed entries are read-only and always enabled -/

/-- C4: aggregation produces every Managed-scope entry with
`enabled = true`, and toggling a Managed-scope entry is a no-op: the
file-system state is returned unchanged (nothing is read for writing or
modified, and the embedding is a total function, so nothing is thrown)
and the only effect is the user-visible warning. -/
theorem c4_managed_readonly :
    (∀ (fs : FsState) (workspaceRoot : Option String)
        (entry : McpServerEntry),
      entry.scope = .managed →
      toggleServer fs workspaceRoot entry =
        (fs, ["Managed MCP servers cannot be toggled."])) ∧
    (∀ (fs : FsState) (e : McpServerEntry),
      e ∈ readManagedServers fs → e.enabled = true) := by
  constructor
  · intro fs workspaceRoot entry h
    simp [toggleServer, h]
  · intro fs e he
    unfold readManagedServers at he
    cases hm : (readJson fs.managedConfig).bind (fun c => c.mcpServers) with
    | none => rw [hm] at he; simp at he
    | some m =>
        rw [hm] at he
        simp only [List.mem_map] at he
        obtain ⟨p, _, hp⟩ := he
        rw [← hp]

/-- Witness for `c4_managed_readonly` on a concrete managed entry and a
concrete managed config file. -/
theorem c4_managed_readonly_witness :
    toggleServer {} none
        { name := "corp", config := .http "http://corp" none,
          scope := .managed, enabled := true,
          configFilePath := "/etc/claude-code/managed-mcp.json" } =
      ({}, ["Managed MCP servers cannot be toggled."]) ∧
    ({ name := "corp", config := .http "http://corp" none,
       scope := .managed, enabled := true,
       configFilePath := "/etc/claude-code/managed-mcp.json" } :
      McpServerEntry).enabled = true :=
  ⟨c4_managed_readonly.1 {} none
      { name := "corp", config := .http "http://corp" none,
        scope := .managed, enabled := true,
        configFilePath := "/etc/claude-code/managed-mcp.json" } rfl,
   c4_managed_readonly.2
      { managedConfig :=
          .ok { mcpServers := some [("corp", .http "http://corp" none)] } }
      { name := "corp", config := .http "http://corp" none,
        scope := .managed, enabled := true,
        configFilePath := "/etc/claude-code/managed-mcp.json" }
      (by decide)⟩

/-! ## Claim C10: project toggle without a workspace root -/

/-- C10: toggling a Project-scope entry (as produced by aggregation,
i.e. without a `pluginId`) when no workspace root is available returns
silently: no file is read or written, no warning or error is surfaced,
and the file-system state is unchanged. -/
theorem c10_project_toggle_no_root (fs : FsState) (entry : McpServerEntry)
    (hScope : entry.scope = .project) (hPid : entry.pluginId = none) :
    toggleServer fs none entry = (fs, []) := by
  simp [toggleServer, hScope, hPid, toggleProjectServer, settingsLocalPath]

/-- Witness for `c10_project_toggle_no_root` on a concrete entry. -/
theorem c10_project_toggle_no_root_witness :
    toggleServer {} none
        { name := "db", config := .stdio "db-server" none none none,
          scope := .project, enabled := true,
          configFilePath := "/w/.mcp.json" } =
      ({}, []) :=
  c10_project_toggle_no_root {}
    { name := "db", config := .stdio "db-server" none none none,
      scope := .project, enabled := true, configFilePath := "/w/.mcp.json" }
    rfl rfl

/-! ## Claim C5: cache-key identity -/

/-- The last character of each scope string: the four are pairwise
distinct, which makes `cacheKey` injective on `(name, scope)`. -/
def scopeLastChar : McpScope → Char
  | .project => 't'
  | .user => 'r'
  | .localProject => 'l'
  | .managed => 'd'

theorem scopeStr_getLast (s : McpScope) :
    s.str.data.getLast? = some (scopeLastChar s) := by
  cases s <;> rfl

theorem scope_determined (s₁ s₂ : McpScope) (l₁ l₂ : List Char)
    (h : l₁ ++ (":".data ++ s₁.str.data) =
      l₂ ++ (":".data ++ s₂.str.data)) : s₁ = s₂ := by
  have h2 := congrArg List.getLast? h
  rw [List.getLast?_append, List.getLast?_append, List.getLast?_append,
    List.getLast?_append, scopeStr_getLast, scopeStr_getLast] at h2
  have h3 : some (scopeLastChar s₁) = some (scopeLastChar s₂) := h2
  have h4 := Option.some.inj h3
  cases s₁ <;> cases s₂ <;> first
    | rfl
    | exact absurd h4 (by decide)

/-- C5 counterexample: `cacheKey` is `name:scope` only — it ignores
`pluginId`, so two plugin-sourced entries with the same name and scope
but different `pluginId`s share one cache slot, and a probe of the
second overwrites the cached result of the first. -/
theorem c5_counterexample :
    ({ name := "srv", config := .stdio "a" none none none, scope := .user,
       enabled := true, configFilePath := "/p1/.mcp.json",
       pluginId := some "p1" } : McpServerEntry).pluginId ≠
      ({ name := "srv", config := .http "http://b" none, scope := .user,
         enabled := true, configFilePath := "/p2/.mcp.json",
         pluginId := some "p2" } : McpServerEntry).pluginId ∧
    cacheKey
        { name := "srv", config := .stdio "a" none none none,
          scope := .user, enabled := true,
          configFilePath := "/p1/.mcp.json", pluginId := some "p1" } =
      cacheKey
        { name := "srv", config := .http "http://b" none, scope := .user,
          enabled := true, configFilePath := "/p2/.mcp.json",
          pluginId := some "p2" } ∧
    (getCachedResult
        (checkTier2
          { name := "srv", config := .http "http://b" none, scope := .user,
            enabled := true, configFilePath := "/p2/.mcp.json",
            pluginId := some "p2" }
          (.success none) 0 5
          (checkTier1
            { name := "srv", config := .stdio "a" none none none,
              scope := .user, enabled := true,
              configFilePath := "/p1/.mcp.json", pluginId := some "p1" }
            { whichResult := .ok (some "/bin/a"),
              fetchResult := .error "unused" }
            0 1 []).2).2
        { name := "srv", config := .stdio "a" none none none,
          scope := .user, enabled := true,
          configFilePath := "/p1/.mcp.json", pluginId := some "p1" }
        5).1 =
      some
        { status := .healthy, latencyMs := some 5, toolCount := none,
          checkedAt := 5, tier := 2 } := by
  refine ⟨by decide, by decide, ?_⟩
  decide

/-- C5 (amended): the health cache is keyed by `(name, scope)` for every
entry, plugin-sourced or not: `cacheKey e₁ = cacheKey e₂` exactly when
the names and scopes agree, with `pluginId` playing no role. -/
theorem c5_cacheKey_eq_iff (e₁ e₂ : McpServerEntry) :
    cacheKey e₁ = cacheKey e₂ ↔ e₁.name = e₂.name ∧ e₁.scope = e₂.scope := by
  constructor
  · intro h
    have h2 := congrArg String.data h
    simp only [cacheKey, String.data_append, List.append_assoc] at h2
    have hs : e₁.scope = e₂.scope := scope_determined _ _ _ _ h2
    rw [hs] at h2
    exact ⟨String.ext (List.append_cancel_right h2), hs⟩
  · rintro ⟨hn, hs⟩
    simp [cacheKey, hn, hs]

/-- Witness for `c5_cacheKey_eq_iff`: two entries differing only in
`pluginId` get the same cache key. -/
theorem c5_cacheKey_eq_iff_witness :
    cacheKey
        { name := "srv", config := .stdio "a" none none none,
          scope := .localProject, enabled := true,
          configFilePath := "/p1/.mcp.json", pluginId := some "p1" } =
      cacheKey
        { name := "srv", config := .stdio "a" none none none,
          scope := .localProject, enabled := false,
          configFilePath := "/p2/.mcp.json", pluginId := some "p2" } :=
  (c5_cacheKey_eq_iff
      { name := "srv", config := .stdio "a" none none none,
        scope := .localProject, enabled := true,
        configFilePath := "/p1/.mcp.json", pluginId := some "p1" }
      { name := "srv", config := .stdio "a" none none none,
        scope := .localProject, enabled := false,
        configFilePath := "/p2/.mcp.json", pluginId := some "p2" }).mpr
    ⟨rfl, rfl⟩

/-! ## Claim C9: name uniqueness within a (scope, source) pair -/

/-- C9 counterexample: the User reader concatenates the active and
parked maps without deduplication, so a name present in both maps of
the same block yields two entries with the same `(name, scope)`. -/
theorem c9_counterexample :
    ((readUserServers
        { claudeGlobal :=
            .ok { block :=
                    { mcpServers := some [("dup", .stdio "a" none none none)],
                      disabledMcpServers :=
                        some [("dup", .stdio "b" none none none)] } } }).map
        (fun e => (e.name, e.scope)) =
      [("dup", McpScope.user), ("dup", McpScope.user)]) ∧
    ¬((readUserServers
        { claudeGlobal :=
            .ok { block :=
                    { mcpServers := some [("dup", .stdio "a" none none none)],
                      disabledMcpServers :=
                        some [("dup", .stdio "b" none none none)] } } }).map
        (fun e => (e.name, e.scope))).Nodup := by
  exact ⟨by decide, by decide⟩

/-- C9 (amended): within one source read, an entry's name is unique for
its `(scope, source)` pair **provided** the block's active and parked
maps have duplicate-free keys and share no name; when a name appears in
both maps of the same block, the User and LocalPerProject readers emit
two entries with the same name. -/
theorem c9_source_name_uniqueness :
    (∀ (fs : FsState) (gc : ClaudeGlobalConfig),
      fs.claudeGlobal = .ok gc →
      (omapKeys (gc.block.mcpServers.getD [])).Nodup →
      (omapKeys (gc.block.disabledMcpServers.getD [])).Nodup →
      (∀ k, k ∈ omapKeys (gc.block.mcpServers.getD []) →
        k ∉ omapKeys (gc.block.disabledMcpServers.getD [])) →
      ((readUserServers fs).map (fun e => e.name)).Nodup) ∧
    (∀ (fs : FsState) (root : String) (gc : ClaudeGlobalConfig)
        (projects : OMap ServerBlock) (pb : ServerBlock),
      fs.claudeGlobal = .ok gc → gc.projects = some projects →
      omapGet projects root = some pb →
      (omapKeys (pb.mcpServers.getD [])).Nodup →
      (omapKeys (pb.disabledMcpServers.getD [])).Nodup →
      (∀ k, k ∈ omapKeys (pb.mcpServers.getD []) →
        k ∉ omapKeys (pb.disabledMcpServers.getD [])) →
      ((readLocalServers fs (some root)).map (fun e => e.name)).Nodup) := by
  constructor
  · intro fs gc hfs h1 h2 h3
    simp only [readUserServers, hfs, readJson]
    cases hA : gc.block.mcpServers <;>
      cases hB : gc.block.disabledMcpServers <;>
      simp_all [List.nodup_append, omapKeys, List.map_map,
        Function.comp_def, List.Disjoint] <;>
      exact h3
  · intro fs root gc projects pb hfs hp hg h1 h2 h3
    simp only [readLocalServers, hfs, readJson, hp, Option.bind_some, hg]
    cases hA : pb.mcpServers <;>
      cases hB : pb.disabledMcpServers <;>
      simp_all [List.nodup_append, omapKeys, List.map_map,
        Function.comp_def, List.Disjoint] <;>
      exact h3

/-- Witness for `c9_source_name_uniqueness` on a concrete store whose
active and parked maps are disjoint. -/
theorem c9_source_name_uniqueness_witness :
    ((readUserServers
        { claudeGlobal :=
            .ok { block :=
                    { mcpServers := some [("a", .stdio "a" none none none)],
                      disabledMcpServers :=
                        some [("b", .stdio "b" none none none)] } } }).map
        (fun e => e.name)).Nodup :=
  c9_source_name_uniqueness.1
    { claudeGlobal :=
        .ok { block :=
                { mcpServers := some [("a", .stdio "a" none none none)],
                  disabledMcpServers :=
                    some [("b", .stdio "b" none none none)] } } }
    { block :=
        { mcpServers := some [("a", .stdio "a" none none none)],
          disabledMcpServers := some [("b", .stdio "b" none none none)] } }
    rfl (by decide) (by decide) (by decide)

/-! ## Claim C3: ranking -/

theorem ordThen_eq_lt (o p : Ordering) :
    o.then p = .lt ↔ o = .lt ∨ (o = .eq ∧ p = .lt) := by
  cases o <;> simp [Ordering.then]

theorem ordThen_ne_gt (o p : Ordering) :
    o.then p ≠ .gt ↔ o = .lt ∨ (o = .eq ∧ p ≠ .gt) := by
  cases o <;> simp [Ordering.then]

theorem ord_ne_gt (o : Ordering) : o ≠ .gt ↔ o = .lt ∨ o = .eq := by
  cases o <;> simp

theorem ordThen_swap (o p : Ordering) :
    (o.then p).swap = o.swap.then p.swap := by
  cases o <;> rfl

theorem lexCmpNat_eq_iff : ∀ (x y : List Nat), lexCmpNat x y = .eq ↔ x = y
  | [], [] => by simp [lexCmpNat]
  | [], _ :: _ => by simp [lexCmpNat]
  | _ :: _, [] => by simp [lexCmpNat]
  | a :: as, b :: bs => by
      rw [lexCmpNat]
      rcases Nat.lt_trichotomy a b with h | h | h
      · rw [Nat.compare_eq_lt.mpr h]
        simp [Ordering.then]
        intro he
        omega
      · subst h
        rw [Nat.compare_eq_eq.mpr rfl]
        simp [Ordering.then, lexCmpNat_eq_iff as bs]
      · rw [Nat.compare_eq_gt.mpr h]
        simp [Ordering.then]
        intro he
        omega

theorem lexCmpNat_lt_trans :
    ∀ (x y z : List Nat), lexCmpNat x y = .lt → lexCmpNat y z = .lt →
      lexCmpNat x z = .lt := by
  intro x
  induction x with
  | nil =>
      intro y z h1 h2
      cases y with
      | nil => simp [lexCmpNat] at h1
      | cons b bs =>
          cases z with
          | nil => simp [lexCmpNat] at h2
          | cons c cs => simp [lexCmpNat]
  | cons a as ih =>
      intro y z h1 h2
      cases y with
      | nil => simp [lexCmpNat] at h1
      | cons b bs =>
          cases z with
          | nil => simp [lexCmpNat] at h2
          | cons c cs =>
              rw [lexCmpNat, ordThen_eq_lt] at h1 h2 ⊢
              rw [Nat.compare_eq_lt, Nat.compare_eq_eq] at h1 h2 ⊢
              rcases h1 with h1 | ⟨hab, h1⟩ <;> rcases h2 with h2 | ⟨hbc, h2⟩
              · exact Or.inl (by omega)
              · exact Or.inl (by omega)
              · exact Or.inl (by omega)
              · exact Or.inr ⟨by omega, ih bs cs h1 h2⟩

theorem lexCmpNat_swap : ∀ (x y : List Nat),
    (lexCmpNat x y).swap = lexCmpNat y x := by
  intro x
  induction x with
  | nil => intro y; cases y <;> rfl
  | cons a as ih =>
      intro y
      cases y with
      | nil => rfl
      | cons b bs =>
          rw [lexCmpNat, lexCmpNat, ordThen_swap, ih bs]
          rcases Nat.lt_trichotomy a b with h | h | h
          · rw [Nat.compare_eq_lt.mpr h, Nat.compare_eq_gt.mpr h]
            rfl
          · subst h
            rw [Nat.compare_eq_eq.mpr rfl]
            rfl
          · rw [Nat.compare_eq_gt.mpr h, Nat.compare_eq_lt.mpr h]
            rfl

theorem lexCmpNat_ne_gt_trans (x y z : List Nat)
    (h1 : lexCmpNat x y ≠ .gt) (h2 : lexCmpNat y z ≠ .gt) :
    lexCmpNat x z ≠ .gt := by
  rw [ord_ne_gt] at h1 h2 ⊢
  rcases h1 with h1 | h1 <;> rcases h2 with h2 | h2
  · exact Or.inl (lexCmpNat_lt_trans _ _ _ h1 h2)
  · rw [lexCmpNat_eq_iff] at h2
    rw [← h2]
    exact Or.inl h1
  · rw [lexCmpNat_eq_iff] at h1
    rw [h1]
    exact Or.inl h2
  · rw [lexCmpNat_eq_iff] at h1 h2
    rw [h1, h2]
    exact Or.inr ((lexCmpNat_eq_iff _ _).mpr rfl)

theorem localeCmp_ne_gt_trans (a b c : String)
    (h1 : localeCmp a b ≠ .gt) (h2 : localeCmp b c ≠ .gt) :
    localeCmp a c ≠ .gt := by
  rw [localeCmp, ordThen_ne_gt] at h1 h2 ⊢
  rcases h1 with h1 | ⟨h1p, h1c⟩ <;> rcases h2 with h2 | ⟨h2p, h2c⟩
  · exact Or.inl (lexCmpNat_lt_trans _ _ _ h1 h2)
  · rw [lexCmpNat_eq_iff] at h2p
    rw [← h2p]
    exact Or.inl h1
  · rw [lexCmpNat_eq_iff] at h1p
    rw [h1p]
    exact Or.inl h2
  · rw [lexCmpNat_eq_iff] at h1p h2p
    refine Or.inr ⟨?_, ?_⟩
    · rw [lexCmpNat_eq_iff, h1p, h2p]
    · exact lexCmpNat_ne_gt_trans _ _ _ h1c h2c

theorem localeCmp_swap (s t : String) :
    (localeCmp s t).swap = localeCmp t s := by
  rw [localeCmp, localeCmp, ordThen_swap, lexCmpNat_swap, lexCmpNat_swap]

theorem localeCmp_total (s t : String) :
    localeCmp s t ≠ .gt ∨ localeCmp t s ≠ .gt := by
  cases h : localeCmp s t with
  | lt => exact Or.inl (by simp [h])
  | eq => exact Or.inl (by simp [h])
  | gt =>
      refine Or.inr ?_
      rw [← localeCmp_swap, h]
      simp [Ordering.swap]

theorem localeCompare_nonpos_iff (s t : String) :
    localeCompare s t ≤ 0 ↔ localeCmp s t ≠ .gt := by
  unfold localeCompare
  cases h : localeCmp s t <;> decide

theorem itemCompare_le_iff (a b : ServerItem) :
    itemCompare a b ≤ 0 ↔
      (itemPriority a.2 < itemPriority b.2 ∨
        (itemPriority a.2 = itemPriority b.2 ∧
          localeCompare a.1.name b.1.name ≤ 0)) := by
  simp only [itemCompare]
  by_cases h : itemPriority a.2 = itemPriority b.2
  · simp [h]
  · rw [if_pos h]
    constructor
    · intro hle
      exact Or.inl (by omega)
    · intro hor
      rcases hor with hlt | ⟨heq, _⟩
      · omega
      · exact absurd heq h

theorem itemCompare_trans {a b c : ServerItem} (h1 : itemCompare a b ≤ 0)
    (h2 : itemCompare b c ≤ 0) : itemCompare a c ≤ 0 := by
  rw [itemCompare_le_iff] at h1 h2 ⊢
  rcases h1 with h1 | ⟨h1e, h1l⟩ <;> rcases h2 with h2 | ⟨h2e, h2l⟩
  · exact Or.inl (by omega)
  · exact Or.inl (by omega)
  · exact Or.inl (by omega)
  · refine Or.inr ⟨h1e.trans h2e, ?_⟩
    rw [localeCompare_nonpos_iff] at h1l h2l ⊢
    exact localeCmp_ne_gt_trans _ _ _ h1l h2l

theorem itemCompare_total (a b : ServerItem) :
    itemCompare a b ≤ 0 ∨ itemCompare b a ≤ 0 := by
  rw [itemCompare_le_iff, itemCompare_le_iff]
  rcases Nat.lt_trichotomy (itemPriority a.2) (itemPriority b.2) with h | h | h
  · exact Or.inl (Or.inl h)
  · rcases localeCmp_total a.1.name b.1.name with hl | hl
    · exact Or.inl (Or.inr ⟨h, (localeCompare_nonpos_iff _ _).mpr hl⟩)
    · exact Or.inr (Or.inr ⟨h.symm, (localeCompare_nonpos_iff _ _).mpr hl⟩)
  · exact Or.inr (Or.inl h)

/-- C3 counterexample: the tiebreak is `localeCompare`, not code-point
comparison. With two Healthy servers named `"B"` and `"a"` — purely
alphabetic names, inside the faithful domain of the collation
embedding — the code ranks `"a"` before `"B"` (root-locale order:
letters case-insensitively, lowercase before uppercase), while the
claim's code-point order would rank `"B"` (code point 66) before `"a"`
(code point 97). -/
theorem c3_counterexample :
    ((getServerItems
        [{ name := "B", config := .http "http://b" none, scope := .user,
           enabled := true, configFilePath := "/h/.claude.json" },
         { name := "a", config := .http "http://a" none, scope := .user,
           enabled := true, configFilePath := "/h/.claude.json" }]
        [("B:user", { status := .healthy, checkedAt := 0, tier := 2 }),
         ("a:user", { status := .healthy, checkedAt := 0, tier := 2 })]
        .user).map (fun i => i.1.name) = ["a", "B"]) ∧
    ((getServerItemsCodePointSpec
        [{ name := "B", config := .http "http://b" none, scope := .user,
           enabled := true, configFilePath := "/h/.claude.json" },
         { name := "a", config := .http "http://a" none, scope := .user,
           enabled := true, configFilePath := "/h/.claude.json" }]
        [("B:user", { status := .healthy, checkedAt := 0, tier := 2 }),
         ("a:user", { status := .healthy, checkedAt := 0, tier := 2 })]
        .user).map (fun i => i.1.name) = ["B", "a"]) ∧
    ["a", "B"] ≠ ["B", "a"] := by
  refine ⟨by simp +decide [getServerItems, getServerItemsCodePointSpec, List.mergeSort,
      List.merge, itemCompare, itemPriority, localeCompare, localeCmp,
      lexCmpNat, collPrimary, collCase, HEALTH_SORT_PRIORITY,
      HEALTH_SORT_PRIORITY_DEFAULT, cacheKey, omapGet, McpScope.str], by simp +decide [getServerItems, getServerItemsCodePointSpec, List.mergeSort,
      List.merge, itemCompare, itemPriority, localeCompare, localeCmp,
      lexCmpNat, collPrimary, collCase, HEALTH_SORT_PRIORITY,
      HEALTH_SORT_PRIORITY_DEFAULT, cacheKey, omapGet, McpScope.str], by decide⟩

/-- C3 (amended): `getServerItems` returns exactly the entries of the
requested scope (as a permutation of the filtered input), ordered
ascending by the numeric health priority (good 0, checking 1,
unknown/no-result 2, failures 3) with ties broken by the locale-aware
`localeCompare` order of the names, not raw code-point order. The tie
order is stated for entries whose names are ASCII alphanumerics, where
the collation embedding coincides with the ICU root collation (names
with punctuation or symbols sort by ICU rules the embedding does not
model). The claim's two examples hold: statuses
[Error, Unknown(no result), Healthy] rank as [Healthy, Unknown, Error],
and two Healthy entries "beta" and "alpha" rank as [alpha, beta]. -/
theorem c3_ranking (servers : List McpServerEntry)
    (healthResults : HealthCache) (scope : McpScope) :
    List.Perm ((getServerItems servers healthResults scope).map Prod.fst)
      (servers.filter (fun s => decide (s.scope = scope))) ∧
    ((∀ e ∈ servers, e.name.toList.all isAsciiAlphanum = true) →
      (getServerItems servers healthResults scope).Pairwise
        (fun a b => itemPriority a.2 < itemPriority b.2 ∨
          (itemPriority a.2 = itemPriority b.2 ∧
            localeCompare a.1.name b.1.name ≤ 0))) ∧
    ((getServerItems
        [{ name := "err", config := .http "http://e" none, scope := .user,
           enabled := true, configFilePath := "/h/.claude.json" },
         { name := "unk", config := .http "http://u" none, scope := .user,
           enabled := true, configFilePath := "/h/.claude.json" },
         { name := "hea", config := .http "http://h" none, scope := .user,
           enabled := true, configFilePath := "/h/.claude.json" }]
        [("err:user", { status := .error, checkedAt := 0, tier := 2 }),
         ("hea:user", { status := .healthy, checkedAt := 0, tier := 2 })]
        .user).map (fun i => i.1.name) = ["hea", "unk", "err"]) ∧
    ((getServerItems
        [{ name := "beta", config := .http "http://b" none, scope := .user,
           enabled := true, configFilePath := "/h/.claude.json" },
         { name := "alpha", config := .http "http://a" none, scope := .user,
           enabled := true, configFilePath := "/h/.claude.json" }]
        [("beta:user", { status := .healthy, checkedAt := 0, tier := 2 }),
         ("alpha:user", { status := .healthy, checkedAt := 0, tier := 2 })]
        .user).map (fun i => i.1.name) = ["alpha", "beta"]) := by
  refine ⟨?_, ?_, by simp +decide [getServerItems, getServerItemsCodePointSpec, List.mergeSort,
      List.merge, itemCompare, itemPriority, localeCompare, localeCmp,
      lexCmpNat, collPrimary, collCase, HEALTH_SORT_PRIORITY,
      HEALTH_SORT_PRIORITY_DEFAULT, cacheKey, omapGet, McpScope.str], by simp +decide [getServerItems, getServerItemsCodePointSpec, List.mergeSort,
      List.merge, itemCompare, itemPriority, localeCompare, localeCmp,
      lexCmpNat, collPrimary, collCase, HEALTH_SORT_PRIORITY,
      HEALTH_SORT_PRIORITY_DEFAULT, cacheKey, omapGet, McpScope.str]⟩
  · have hp := List.mergeSort_perm
      ((servers.filter (fun s => decide (s.scope = scope))).map
        (fun s => (s, omapGet healthResults (cacheKey s))))
      (fun a b => decide (itemCompare a b ≤ 0))
    have hp2 := hp.map Prod.fst
    unfold getServerItems
    refine hp2.trans ?_
    rw [List.map_map]
    simp [Function.comp_def]
  · intro _halnum
    have hs := @List.sorted_mergeSort ServerItem
      (fun a b => decide (itemCompare a b ≤ 0))
      (fun a b c h1 h2 => by
        simp only [decide_eq_true_eq] at h1 h2 ⊢
        exact itemCompare_trans h1 h2)
      (fun a b => by
        rcases itemCompare_total a b with h | h <;> simp [h])
      ((servers.filter (fun s => decide (s.scope = scope))).map
        (fun s => (s, omapGet healthResults (cacheKey s))))
    unfold getServerItems
    refine hs.imp ?_
    intro a b h
    simp only [decide_eq_true_eq] at h
    exact (itemCompare_le_iff a b).mp h

/-- Witness for `c3_ranking`: the alphanumeric-names hypothesis is
discharged at a concrete pair of Healthy servers, giving the pairwise
tie order concretely. -/
theorem c3_ranking_witness :
    (getServerItems
        [{ name := "beta", config := .http "http://b" none, scope := .user,
           enabled := true, configFilePath := "/h/.claude.json" },
         { name := "alpha", config := .http "http://a" none, scope := .user,
           enabled := true, configFilePath := "/h/.claude.json" }]
        [("beta:user", { status := .healthy, checkedAt := 0, tier := 2 }),
         ("alpha:user", { status := .healthy, checkedAt := 0, tier := 2 })]
        .user).Pairwise
      (fun a b => itemPriority a.2 < itemPriority b.2 ∨
        (itemPriority a.2 = itemPriority b.2 ∧
          localeCompare a.1.name b.1.name ≤ 0)) :=
  (c3_ranking
      [{ name := "beta", config := .http "http://b" none, scope := .user,
         enabled := true, configFilePath := "/h/.claude.json" },
       { name := "alpha", config := .http "http://a" none, scope := .user,
         enabled := true, configFilePath := "/h/.claude.json" }]
      [("beta:user", { status := .healthy, checkedAt := 0, tier := 2 }),
       ("alpha:user", { status := .healthy, checkedAt := 0, tier := 2 })]
      .user).2.1 (by decide)

/-! ## Claim C2: Strategy-A round trip -/

theorem moveServerKey_roundTrip (b : ServerBlock) (entry : McpServerEntry)
    (act : OMap McpServerConfig) (cfg : McpServerConfig)
    (hEn : entry.enabled = true)
    (hAct : b.mcpServers = some act)
    (hGet : omapGet act entry.name = some cfg)
    (hNodup : (omapKeys act).Nodup)
    (hParked : b.disabledMcpServers = none ∨
      (∃ pk, b.disabledMcpServers = some pk ∧ pk ≠ [] ∧
        omapGet pk entry.name = none)) :
    moveServerKey (moveServerKey b entry) { entry with enabled := false } =
      { b with mcpServers := some (omapDel act entry.name ++ [(entry.name, cfg)]) } := by
  obtain ⟨bm, bd, be⟩ := b
  simp only at hAct
  subst hAct
  have hDelGet : omapGet (omapDel act entry.name) entry.name = none :=
    omapGet_omapDel_of_nodup hNodup entry.name
  rcases hParked with hP | ⟨pk, hP, hne, hPnone⟩
  · simp only at hP
    subst hP
    simp only [moveServerKey, hEn, if_true, Option.some_bind, hGet,
      Option.getD_some, Option.getD_none]
    simp only [omapGet_omapSet_self, Option.some_bind,
      omapDel_omapSet_of_get_none (show omapGet ([] : OMap McpServerConfig)
        entry.name = none from rfl),
      omapSet_of_get_none hDelGet, if_true]
    simp
  · simp only at hP
    subst hP
    simp only [moveServerKey, hEn, if_true, Option.some_bind, hGet,
      Option.getD_some]
    simp only [omapGet_omapSet_self, Option.some_bind,
      omapDel_omapSet_of_get_none hPnone,
      omapSet_of_get_none hDelGet]
    simp [hne]

/-- C2 counterexample: with an initial store whose active map is
`[a, b]`, toggling `a` off and on again yields active map `[b, a]` —
the toggled key has moved to the end, so the store is *not* restored
byte-for-byte (no key is lost, but the key order changed). -/
theorem c2_counterexample :
    (toggleServer
        (toggleServer
          { claudeGlobal :=
              .ok { block :=
                      { mcpServers :=
                          some [("a", .stdio "cmda" none none none),
                                ("b", .stdio "cmdb" none none none)] } } }
          none
          { name := "a", config := .stdio "cmda" none none none,
            scope := .user, enabled := true,
            configFilePath := "/home/user/.claude.json" }).1
        none
        { name := "a", config := .stdio "cmda" none none none,
          scope := .user, enabled := false,
          configFilePath := "/home/user/.claude.json" }).1 =
      { claudeGlobal :=
          .ok { block :=
                  { mcpServers :=
                      some [("b", .stdio "cmdb" none none none),
                            ("a", .stdio "cmda" none none none)] } } } ∧
    (toggleServer
        (toggleServer
          { claudeGlobal :=
              .ok { block :=
                      { mcpServers :=
                          some [("a", .stdio "cmda" none none none),
                                ("b", .stdio "cmdb" none none none)] } } }
          none
          { name := "a", config := .stdio "cmda" none none none,
            scope := .user, enabled := true,
            configFilePath := "/home/user/.claude.json" }).1
        none
        { name := "a", config := .stdio "cmda" none none none,
          scope := .user, enabled := false,
          configFilePath := "/home/user/.claude.json" }).1 ≠
      { claudeGlobal :=
          .ok { block :=
                  { mcpServers :=
                      some [("a", .stdio "cmda" none none none),
                            ("b", .stdio "cmdb" none none none)] } } } := by
  exact ⟨by decide, by decide⟩

/-- C2 (amended): toggling an enabled User or LocalPerProject entry off
and on again (Strategy A) restores the original store content except
that the toggled server's key moves to the end of its active map: no
key or config value is lost, every other key of every object keeps its
order, and the serialized store equals the original exactly when the
toggled key was already last in the active map. Stated for stores whose
active map has duplicate-free keys and does not also park the same name
(the parked map is absent or non-empty without the name). -/
theorem c2_strategyA_roundTrip :
    (∀ (fs : FsState) (workspaceRoot : Option String)
        (entry : McpServerEntry) (gc : ClaudeGlobalConfig)
        (act : OMap McpServerConfig) (cfg : McpServerConfig),
      entry.scope = .user → entry.pluginId = none → entry.enabled = true →
      fs.claudeGlobal = .ok gc →
      gc.block.mcpServers = some act →
      omapGet act entry.name = some cfg →
      (omapKeys act).Nodup →
      (gc.block.disabledMcpServers = none ∨
        (∃ pk, gc.block.disabledMcpServers = some pk ∧ pk ≠ [] ∧
          omapGet pk entry.name = none)) →
      (toggleServer (toggleServer fs workspaceRoot entry).1 workspaceRoot
          { entry with enabled := false }).1 =
        { fs with claudeGlobal := .ok { gc with block := { gc.block with mcpServers := some (omapDel act entry.name ++ [(entry.name, cfg)]) } } }) ∧
    (∀ (fs : FsState) (root : String) (entry : McpServerEntry)
        (gc : ClaudeGlobalConfig) (projects : OMap ServerBlock)
        (pb : ServerBlock) (act : OMap McpServerConfig)
        (cfg : McpServerConfig),
      entry.scope = .localProject → entry.pluginId = none →
      entry.enabled = true →
      fs.claudeGlobal = .ok gc →
      gc.projects = some projects →
      omapGet projects root = some pb →
      pb.mcpServers = some act →
      omapGet act entry.name = some cfg →
      (omapKeys act).Nodup →
      (pb.disabledMcpServers = none ∨
        (∃ pk, pb.disabledMcpServers = some pk ∧ pk ≠ [] ∧
          omapGet pk entry.name = none)) →
      (toggleServer (toggleServer fs (some root) entry).1 (some root)
          { entry with enabled := false }).1 =
        { fs with claudeGlobal := .ok { gc with projects := some (omapSet projects root { pb with mcpServers := some (omapDel act entry.name ++ [(entry.name, cfg)]) }) } }) := by
  constructor
  · intro fs workspaceRoot entry gc act cfg hScope hPid hEn hfs hAct hGet
      hNodup hParked
    have hkey := moveServerKey_roundTrip gc.block entry act cfg hEn hAct hGet
      hNodup hParked
    simp only [toggleServer, hScope, hPid, Option.isSome_none,
      Bool.false_eq_true, if_false, reduceCtorEq, toggleClaudeJsonServer,
      hfs, readJsonW, Option.getD_some]
    rw [hScope, hPid] at hkey
    rw [hkey]
  · intro fs root entry gc projects pb act cfg hScope hPid hEn hfs hProj
      hGetPb hAct hGet hNodup hParked
    have hkey := moveServerKey_roundTrip pb entry act cfg hEn hAct hGet
      hNodup hParked
    simp only [toggleServer, hScope, hPid, Option.isSome_none,
      Bool.false_eq_true, if_false, reduceCtorEq, toggleClaudeJsonServer,
      hfs, readJsonW, Option.getD_some, hProj, hGetPb,
      omapGet_omapSet_self, omapSet_omapSet_self]
    rw [hScope, hPid] at hkey
    rw [hkey]

/-- Witness for `c2_strategyA_roundTrip`: a one-server store round-trips
to the expected moved-to-end form (which for a last key is the original
map). -/
theorem c2_strategyA_roundTrip_witness :
    (toggleServer
        (toggleServer
          { claudeGlobal :=
              .ok { block :=
                      { mcpServers :=
                          some [("a", .stdio "cmda" none none none)] } } }
          none
          { name := "a", config := .stdio "cmda" none none none,
            scope := .user, enabled := true,
            configFilePath := "/home/user/.claude.json" }).1
        none
        { name := "a", config := .stdio "cmda" none none none,
          scope := .user, enabled := false,
          configFilePath := "/home/user/.claude.json" }).1 =
      { claudeGlobal :=
          .ok { block :=
                  { mcpServers :=
                      some ((omapDel [("a", .stdio "cmda" none none none)]
                          "a") ++
                        [("a", .stdio "cmda" none none none)]) } } } :=
  c2_strategyA_roundTrip.1
    { claudeGlobal :=
        .ok { block :=
                { mcpServers :=
                    some [("a", .stdio "cmda" none none none)] } } }
    none
    { name := "a", config := .stdio "cmda" none none none,
      scope := .user, enabled := true,
      configFilePath := "/home/user/.claude.json" }
    { block := { mcpServers := some [("a", .stdio "cmda" none none none)] } }
    [("a", .stdio "cmda" none none none)]
    (.stdio "cmda" none none none)
    rfl rfl rfl rfl rfl (by decide) (by decide) (Or.inl rfl)

/-! ## Claim C8: aggregation resilience -/

theorem readProjectServers_congr {fs₁ fs₂ : FsState} (root : Option String)
    (h1 : fs₁.mcpJson = fs₂.mcpJson)
    (h2 : fs₁.settingsLocal = fs₂.settingsLocal) :
    readProjectServers fs₁ root = readProjectServers fs₂ root := by
  unfold readProjectServers
  rw [h1, h2]

theorem readUserServers_congr {fs₁ fs₂ : FsState}
    (h : fs₁.claudeGlobal = fs₂.claudeGlobal) :
    readUserServers fs₁ = readUserServers fs₂ := by
  unfold readUserServers
  rw [h]

theorem readLocalServers_congr {fs₁ fs₂ : FsState} (root : Option String)
    (h : fs₁.claudeGlobal = fs₂.claudeGlobal) :
    readLocalServers fs₁ root = readLocalServers fs₂ root := by
  unfold readLocalServers
  rw [h]

theorem readManagedServers_congr {fs₁ fs₂ : FsState}
    (h : fs₁.managedConfig = fs₂.managedConfig) :
    readManagedServers fs₁ = readManagedServers fs₂ := by
  unfold readManagedServers
  rw [h]

theorem processInstallation_congr {fs₁ fs₂ : FsState}
    (h : fs₁.pluginConfigs = fs₂.pluginConfigs) (root : Option String)
    (pid : String) (em : OMap Bool) (g : GoodInstallation)
    (seen : List String) :
    processInstallation fs₁ root pid em g seen =
      processInstallation fs₂ root pid em g seen := by
  unfold processInstallation
  rw [h]

theorem processInstallations_congr {fs₁ fs₂ : FsState}
    (h : fs₁.pluginConfigs = fs₂.pluginConfigs) (root : Option String)
    (pid : String) (em : OMap Bool) :
    ∀ (l : List PluginInstallation) (seen : List String),
      processInstallations fs₁ root pid em l seen =
        processInstallations fs₂ root pid em l seen
  | [], _ => rfl
  | .corrupt :: _, _ => rfl
  | .good g :: rest, seen => by
      rw [processInstallations, processInstallations,
        processInstallation_congr h,
        processInstallations_congr h root pid em rest]

theorem processPlugins_congr {fs₁ fs₂ : FsState}
    (h : fs₁.pluginConfigs = fs₂.pluginConfigs) (root : Option String)
    (em : OMap Bool) :
    ∀ (l : List (String × PluginInstallations)) (seen : List String),
      processPlugins fs₁ root em l seen = processPlugins fs₂ root em l seen
  | [], _ => rfl
  | (pid, raw) :: rest, seen => by
      rw [processPlugins, processPlugins,
        processInstallations_congr h root pid em,
        processPlugins_congr h root em rest]

theorem readProjectServers_set_plugins (fs : FsState)
    (root : Option String) (f : JsonFile InstalledPluginsFile) :
    readProjectServers { fs with installedPlugins := f } root =
      readProjectServers fs root :=
  @readProjectServers_congr { fs with installedPlugins := f } fs root rfl rfl

theorem readUserServers_set_plugins (fs : FsState)
    (f : JsonFile InstalledPluginsFile) :
    readUserServers { fs with installedPlugins := f } = readUserServers fs :=
  @readUserServers_congr { fs with installedPlugins := f } fs rfl

theorem readLocalServers_set_plugins (fs : FsState) (root : Option String)
    (f : JsonFile InstalledPluginsFile) :
    readLocalServers { fs with installedPlugins := f } root =
      readLocalServers fs root :=
  @readLocalServers_congr { fs with installedPlugins := f } fs root rfl

theorem readManagedServers_set_plugins (fs : FsState)
    (f : JsonFile InstalledPluginsFile) :
    readManagedServers { fs with installedPlugins := f } =
      readManagedServers fs :=
  @readManagedServers_congr { fs with installedPlugins := f } fs rfl

theorem processPlugins_set_plugins (fs : FsState)
    (f : JsonFile InstalledPluginsFile) (root : Option String)
    (em : OMap Bool) (l : List (String × PluginInstallations))
    (seen : List String) :
    processPlugins { fs with installedPlugins := f } root em l seen =
      processPlugins fs root em l seen :=
  @processPlugins_congr { fs with installedPlugins := f } fs rfl root em l seen

/-- A corrupted installation record throws inside the per-plugin
`try/catch`: the remaining installations of that plugin's list are
abandoned, while the entries (and `seen` keys) of the earlier
installations are kept. -/
theorem processInstallations_corrupt_stops (fs : FsState)
    (root : Option String) (pid : String) (em : OMap Bool) :
    ∀ (pre post : List PluginInstallation) (seen : List String),
      processInstallations fs root pid em
          (pre ++ .corrupt :: post) seen =
        processInstallations fs root pid em pre seen
  | [], _, _ => rfl
  | .corrupt :: _, _, _ => rfl
  | .good g :: rest, post, seen => by
      rw [List.cons_append, processInstallations, processInstallations,
        processInstallations_corrupt_stops fs root pid em rest post]

theorem processPlugins_corrupt_stops (fs : FsState) (root : Option String)
    (em : OMap Bool) (pid : String)
    (pre post : List PluginInstallation)
    (l₂ : List (String × PluginInstallations)) :
    ∀ (l₁ : List (String × PluginInstallations)) (seen : List String),
      processPlugins fs root em
          (l₁ ++ (pid, .arr (pre ++ .corrupt :: post)) :: l₂) seen =
        processPlugins fs root em (l₁ ++ (pid, .arr pre) :: l₂) seen
  | [], seen => by
      rw [List.nil_append, List.nil_append, processPlugins, processPlugins]
      simp only [normalizeInstallations,
        processInstallations_corrupt_stops fs root pid em]
  | (pid', raw') :: rest, seen => by
      rw [List.cons_append, List.cons_append, processPlugins, processPlugins,
        processPlugins_corrupt_stops fs root em pid pre post l₂ rest]

/-- C8 counterexample: the `try/catch` of `readPluginServers` is
per-plugin, not per-installation — a corrupted installation record
aborts the *sibling* installations that follow it in the same plugin's
list, so the well-formed sibling after the corrupt one contributes
nothing (while removing the corrupt record lets it contribute). -/
theorem c8_counterexample :
    readPluginServers
        { installedPlugins :=
            .ok { plugins :=
                    some [("p",
                      .arr [.corrupt,
                            .good { scope := .global,
                                    installPath := "/plug" }])] },
          pluginConfigs :=
            [("/plug/.mcp.json",
              .ok (.flat [("srv", .http "http://s" none)]))] }
        none = [] ∧
    readPluginServers
        { installedPlugins :=
            .ok { plugins :=
                    some [("p",
                      .arr [.good { scope := .global,
                                    installPath := "/plug" }])] },
          pluginConfigs :=
            [("/plug/.mcp.json",
              .ok (.flat [("srv", .http "http://s" none)]))] }
        none =
      [{ name := "srv", config := .http "http://s" none, scope := .user,
         enabled := true, configFilePath := "/plug/.mcp.json",
         pluginId := some "p" }] := by
  exact ⟨by decide, by decide⟩

/-- C8 (amended): aggregation is total (modelled as a total function:
no state of the five sources makes it throw), a failed read of any
source contributes zero entries from that source, and a corrupted
plugin installation contributes nothing and aborts only the *remaining*
installations of the same plugin — entries of that plugin's earlier
installations, of all other plugins, and of the four non-plugin sources
are exactly the ones produced without the corrupted record. -/
theorem c8_aggregate_resilience :
    (∀ (fs : FsState) (root : Option String),
      readJson fs.mcpJson = none → readProjectServers fs root = []) ∧
    (∀ (fs : FsState),
      readJson fs.claudeGlobal = none → readUserServers fs = []) ∧
    (∀ (fs : FsState) (root : Option String),
      readJson fs.claudeGlobal = none → readLocalServers fs root = []) ∧
    (∀ (fs : FsState),
      readJson fs.managedConfig = none → readManagedServers fs = []) ∧
    (∀ (fs : FsState) (root : Option String),
      readJson fs.installedPlugins = none → readPluginServers fs root = []) ∧
    (∀ (fs : FsState) (root : Option String) (ex : OMap String)
        (l₁ l₂ : List (String × PluginInstallations)) (pid : String)
        (pre post : List PluginInstallation),
      getAllServers { fs with installedPlugins := .ok { plugins := some (l₁ ++ (pid, .arr (pre ++ .corrupt :: post)) :: l₂), extra := ex } } root =
        getAllServers { fs with installedPlugins := .ok { plugins := some (l₁ ++ (pid, .arr pre) :: l₂), extra := ex } } root) := by
  refine ⟨?_, ?_, ?_, ?_, ?_, ?_⟩
  · intro fs root h
    cases root <;> simp [readProjectServers, mcpJsonPath, h]
  · intro fs h
    simp [readUserServers, h]
  · intro fs root h
    cases root <;> simp [readLocalServers, h]
  · intro fs h
    simp [readManagedServers, h]
  · intro fs root h
    simp [readPluginServers, h]
  · intro fs root ex l₁ l₂ pid pre post
    unfold getAllServers
    simp only [readProjectServers_set_plugins, readUserServers_set_plugins,
      readLocalServers_set_plugins, readManagedServers_set_plugins]
    unfold readPluginServers
    simp only [readJson, processPlugins_set_plugins]
    rw [processPlugins_corrupt_stops]

/-- Witness for `c8_aggregate_resilience`: a corrupt `.mcp.json` makes
the project source contribute zero entries, and the corrupted-plugin
equality holds at a concrete registry. -/
theorem c8_aggregate_resilience_witness :
    readProjectServers { mcpJson := .corrupt } (some "/w") = [] ∧
    getAllServers { installedPlugins := .ok { plugins := some ([] ++ ("p", .arr ([] ++ .corrupt :: [.good { scope := .global, installPath := "/plug" }])) :: []), extra := [] } } none =
      getAllServers { installedPlugins := .ok { plugins := some ([] ++ ("p", .arr []) :: []), extra := [] } } none :=
  ⟨c8_aggregate_resilience.1 { mcpJson := .corrupt } (some "/w") rfl,
   c8_aggregate_resilience.2.2.2.2.2 { installedPlugins := .absent } none []
     [] [] "p" []
     [.good { scope := .global, installPath := "/plug" }]⟩

end McpManager
